import Mathlib

/-
Verification of the retrieval pipeline of the icak_itsupport_bot repository.

Shallow embedding of the chunking, indexing, retrieval and answer-composition
code in src/chatbot/pdf_processor.py, src/chatbot/rag_system_lite.py,
src/chatbot/rag_system.py and src/chatbot/groq_client.py.

Modelling conventions, stated once here:
* Python dictionaries with a fixed key set become Lean structures.  A key that
  is present in some return dictionaries and absent in others becomes an
  Option field, with none standing for an absent key.
* Library numeric black boxes (the fitted TfidfVectorizer transform, cosine
  similarity, the sentence embedding model and the L2 distance of FAISS) are
  passed in as function parameters.  Their one documented structural contract,
  namely that transforming n texts yields n rows and that scoring a query
  against n rows yields n scores, is captured by building those rows and
  scores with List.map.
* numpy argsort is modelled as a stable ascending argsort (insertion sort on
  positions).  numpy sorts small arrays with insertion sort, which is stable;
  the tie order of the model is documented at each theorem that depends on it.
* Python raising is modelled by total functions plus explicit guards, exactly
  where the code guards; a pickle file that is missing or unreadable is a
  none in the IndexDir record.
-/

namespace ITBot

open scoped List

/-- Metadata dictionary of a chunk: page_number and source keys, each possibly
absent (the code reads them with dict.get and a default). -/
structure Metadata where
  page_number : Option Nat
  source : Option String
deriving DecidableEq

/-- A chunk as produced by PDFProcessor.split_text_into_chunks:
a dictionary with a text string and a metadata dictionary. -/
structure Chunk where
  text : String
  metadata : Metadata
deriving DecidableEq

/-- Placeholder chunk used only as the default of List.getD; every access is
guarded by an index bound, mirroring the guard in the Python code. -/
def emptyChunk : Chunk := ⟨"", ⟨none, none⟩⟩

/-- Python regex class \s over ASCII: space, tab, newline, carriage return,
vertical tab, form feed. -/
def pySpace (c : Char) : Bool :=
  c = ' ' || c = '\t' || c = '\n' || c = '\r' || c = '\x0b' || c = '\x0c'

/-- Python str.strip(): remove leading and trailing whitespace. -/
def pyStrip (s : String) : String :=
  String.mk (((s.data.dropWhile pySpace).reverse.dropWhile pySpace).reverse)

/-- Suffix of a character list strictly after its last newline (used to model
the greedy end of a regex match of r"\n\s*\n"). -/
def afterLastNL : List Char → List Char
  | [] => []
  | c :: rest =>
    if '\n' ∈ rest then afterLastNL rest
    else if c = '\n' then rest
    else afterLastNL rest

/-- re.split(r"\n\s*\n", text) on a character list, with acc the current
segment in reverse.  A match starts at a newline whose following maximal
whitespace run contains another newline; the greedy match consumes the run up
to its last newline.  The first argument is recursion fuel: every step
shortens the character list, so fuel = length + 1 is never exhausted and the
fuel-out arm is unreachable. -/
def splitBlank : Nat → List Char → List Char → List String
  | 0, l, acc => [String.mk (acc.reverse ++ l)]
  | _ + 1, [], acc => [String.mk acc.reverse]
  | fuel + 1, c :: rest, acc =>
    if c = '\n' ∧ '\n' ∈ rest.takeWhile pySpace then
      String.mk acc.reverse ::
        splitBlank fuel
          (afterLastNL (rest.takeWhile pySpace) ++ rest.drop (rest.takeWhile pySpace).length) []
    else
      splitBlank fuel rest (c :: acc)

/-- Paragraph decomposition used by split_text_into_chunks:
paragraphs = re.split(r"\n\s*\n", text). -/
def splitParagraphs (text : String) : List String :=
  splitBlank (text.length + 1) text.data []

/-- Configuration of PDFProcessor.__init__: chunk_size and chunk_overlap. -/
structure PDFProcessor where
  chunk_size : Nat
  chunk_overlap : Nat

/-- The paragraph accumulation loop of PDFProcessor.split_text_into_chunks.
Arguments mirror the loop state: remaining paragraphs, chunks built so far,
current_chunk buffer.  Empty stripped paragraphs are skipped; a paragraph is
appended when current length + paragraph length + 2 fits chunk_size, else the
buffer is flushed (when non-empty) and the paragraph starts a new buffer; the
final buffer is flushed at the end. -/
def chunkAccum (chunk_size : Nat) (metadata : Metadata) :
    List String → List Chunk → String → List Chunk
  | [], chunks, current =>
    if current ≠ "" then chunks ++ [⟨current, metadata⟩] else chunks
  | para :: rest, chunks, current =>
    let p := pyStrip para
    if p = "" then
      chunkAccum chunk_size metadata rest chunks current
    else if current.length + p.length + 2 ≤ chunk_size then
      chunkAccum chunk_size metadata rest chunks
        (if current ≠ "" then current ++ "\n\n" ++ p else p)
    else
      chunkAccum chunk_size metadata rest
        (if current ≠ "" then chunks ++ [⟨current, metadata⟩] else chunks) p

/-- PDFProcessor.split_text_into_chunks(text, metadata): paragraph split at
blank lines, then greedy accumulation under chunk_size.  The configured
chunk_overlap field is never read by the source method. -/
def PDFProcessor.split_text_into_chunks (proc : PDFProcessor) (text : String)
    (metadata : Metadata) : List Chunk :=
  chunkAccum proc.chunk_size metadata (splitParagraphs text) [] ""

/-- Stable insertion of position i into an ascending run of positions,
comparing by score: i goes after every j whose score is ≤ its own. -/
def argInsert (sims : List ℚ) (i : Nat) : List Nat → List Nat
  | [] => [i]
  | j :: rest =>
    if sims.getD j 0 ≤ sims.getD i 0 then j :: argInsert sims i rest
    else i :: j :: rest

/-- numpy argsort modelled as a stable ascending argsort: positions 0..n-1
inserted in order, so equal scores keep ascending position order. -/
def argsortAsc (sims : List ℚ) : List Nat :=
  (List.range sims.length).foldl (fun acc i => argInsert sims i acc) []

/-- Python negative slice a[-k:]: the last k elements, except that a[-0:] is
the whole list. -/
def pySliceLast (l : List Nat) (k : Nat) : List Nat :=
  if k = 0 then l else l.drop (l.length - k)

/-- similarities.argsort()[-top_k:][::-1] from RAGSystemLite.search. -/
def topIndices (sims : List ℚ) (top_k : Nat) : List Nat :=
  (pySliceLast (argsortAsc sims) top_k).reverse

/-- State of RAGSystemLite: the fitted vectorizer (modelled as the transform
it implements), the chunk list, the TF-IDF matrix as an optional list of
rows, and whether the Groq client initialised (groq_client.is_available()). -/
structure RAGSystemLite where
  vectorizer : String → List ℚ
  chunks : List Chunk
  tfidf_matrix : Option (List (List ℚ))
  groq_available : Bool

/-- cosine_similarity(query_vector, tfidf_matrix).flatten(): one score per
matrix row, computed by the library scorer cosSim (a black box parameter). -/
def simsOf (cosSim : List ℚ → List ℚ → ℚ) (s : RAGSystemLite) (query : String)
    (m : List (List ℚ)) : List ℚ :=
  m.map (cosSim (s.vectorizer query))

/-- Body of the result loop of RAGSystemLite.search: keep an index only when
it is below len(self.chunks), and pair the chunk with its similarity. -/
def resolve (s : RAGSystemLite) (sims : List ℚ) (idx : Nat) : Option (Chunk × ℚ) :=
  if idx < s.chunks.length then some (s.chunks.getD idx emptyChunk, sims.getD idx 0)
  else none

/-- RAGSystemLite.search(query, top_k): empty when the matrix is unset or the
chunk list is empty; otherwise rank all rows by cosine similarity, take the
top_k highest by the argsort slice, and resolve indices to chunks. -/
def RAGSystemLite.search (s : RAGSystemLite) (cosSim : List ℚ → List ℚ → ℚ)
    (query : String) (top_k : Nat) : List (Chunk × ℚ) :=
  match s.tfidf_matrix with
  | none => []
  | some m =>
    if s.chunks.length = 0 then []
    else
      (topIndices (simsOf cosSim s query m) top_k).filterMap
        (resolve s (simsOf cosSim s query m))

/-- RAGSystemLite.build_index(chunks): no-op on an empty list; otherwise store
the chunks, fit the vectorizer on their texts (fit is the library fitting
step, a black box parameter) and set the matrix to the transform of each
text, which is what fit_transform returns row by row. -/
def RAGSystemLite.build_index (s : RAGSystemLite)
    (fit : List String → String → List ℚ) (chunks : List Chunk) : RAGSystemLite :=
  if chunks.isEmpty then s
  else
    let texts := chunks.map (fun c => c.text)
    let v := fit texts
    { s with chunks := chunks, vectorizer := v, tfidf_matrix := some (texts.map v) }

/-- The three pickle artifacts of an index directory.  An outer none means the
file is missing or unreadable; the matrix artifact stores the value of
self.tfidf_matrix, which may itself be Python None. -/
structure IndexDir where
  vectorizer : Option (String → List ℚ)
  tfidf_matrix : Option (Option (List (List ℚ)))
  chunks : Option (List Chunk)

/-- RAGSystemLite.save_index(index_dir): pickle the vectorizer, the matrix
value and the chunk list; the in-memory state is not modified. -/
def RAGSystemLite.save_index (s : RAGSystemLite) : IndexDir :=
  ⟨some s.vectorizer, some s.tfidf_matrix, some s.chunks⟩

/-- RAGSystemLite.load_index(index_dir): load vectorizer, then matrix, then
chunks, assigning each field as soon as its file is read; the first failure
returns False, leaving every field assigned so far in place. -/
def RAGSystemLite.load_index (s : RAGSystemLite) (dir : IndexDir) :
    RAGSystemLite × Bool :=
  match dir.vectorizer with
  | none => (s, false)
  | some v =>
    let s1 := { s with vectorizer := v }
    match dir.tfidf_matrix with
    | none => (s1, false)
    | some m =>
      let s2 := { s1 with tfidf_matrix := m }
      match dir.chunks with
      | none => (s2, false)
      | some cs => ({ s2 with chunks := cs }, true)

/-- The cardinality invariant of the spec: whenever a TF-IDF matrix is set,
its row count equals the length of the stored chunk sequence. -/
def RAGSystemLite.indexInv (s : RAGSystemLite) : Prop :=
  ∀ m, s.tfidf_matrix = some m → m.length = s.chunks.length

/-- One element of the search_results list handed to GroqClient:
a dictionary with chunk and similarity keys. -/
structure SR where
  chunk : Chunk
  similarity : ℚ
deriving DecidableEq

/-- A source dictionary.  The entries built in GroqClient carry page and
similarity keys only; the entries built in the RAGSystemLite fallback also
carry a source key.  src = none models an absent source key. -/
structure Source where
  page : Option Nat
  src : Option String
  similarity : ℚ
deriving DecidableEq

/-- Return dictionary of GroqClient.generate_answer_with_sources. -/
structure GroqResult where
  answer : Option String
  sources : List Source
  refined : Bool
  confidence : String
deriving DecidableEq

/-- Return dictionary of RAGSystemLite.generate_answer.  similarity and
refined keys are present only on some paths, hence Option. -/
structure AnswerS where
  answer : Option String
  sources : List Source
  confidence : String
  similarity : Option ℚ
  refined : Option Bool
deriving DecidableEq

/-- Python truthiness of an optional string: None and the empty string are
falsy. -/
def truthyOpt : Option String → Bool
  | none => false
  | some s => s != ""

/-- GroqClient.refine_answer: None when the client is unavailable or the
search results are empty; otherwise the outcome of the API call, modelled by
the oracle parameter (none = the call raised, some r = the stripped reply). -/
def GroqClient.refine_answer (available : Bool) (oracle : Option String)
    (search_results : List SR) : Option String :=
  if !available then none
  else if search_results.isEmpty then none
  else oracle

/-- GroqClient.generate_answer_with_sources: refine, build sources from the
first three search results (page and similarity keys only), and on a falsy
refined answer fall back to joining the first two chunk texts with a blank
line. -/
def GroqClient.generate_answer_with_sources (available : Bool)
    (oracle : Option String) (search_results : List SR) : GroqResult :=
  let refined_answer := GroqClient.refine_answer available oracle search_results
  let sources := (search_results.take 3).map
    (fun r => Source.mk r.chunk.metadata.page_number none r.similarity)
  if truthyOpt refined_answer then
    ⟨refined_answer, sources, true, "high"⟩
  else
    ⟨some (String.intercalate "\n\n" ((search_results.take 2).map (fun r => r.chunk.text))),
      sources, false, "medium"⟩

/-- Boolean form of the threshold test similarity >= similarity_threshold. -/
def passSim (t : ℚ) (r : Chunk × ℚ) : Bool := decide (t ≤ r.2)

/-- The shared fallback tail of RAGSystemLite.generate_answer: walk the first
two results, keep those passing the threshold, join their texts with a blank
line and build page/source/similarity source entries; low confidence when
nothing passed, else high confidence above 0.3. -/
def fallbackAnswer (threshold best_similarity : ℚ)
    (results : List (Chunk × ℚ)) : AnswerS :=
  let pairs := (results.take 2).filter (passSim threshold)
  if pairs.isEmpty then ⟨none, [], "low", none, none⟩
  else
    ⟨some (String.intercalate "\n\n" (pairs.map (fun r => r.1.text))),
      pairs.map (fun r =>
        Source.mk r.1.metadata.page_number (some (r.1.metadata.source.getD "")) r.2),
      if mkRat 3 10 < best_similarity then "high" else "medium",
      some best_similarity, some false⟩

/-- RAGSystemLite.generate_answer(query, top_k, similarity_threshold):
search, confidence none on empty results, low on a best similarity below the
threshold, then filter passing results for Groq; when the client is available
and its answer is truthy return it with the Groq sources, otherwise fall back
to raw concatenation. -/
def RAGSystemLite.generate_answer (s : RAGSystemLite)
    (cosSim : List ℚ → List ℚ → ℚ) (oracle : Option String) (query : String)
    (top_k : Nat) (threshold : ℚ) : AnswerS :=
  let results := s.search cosSim query top_k
  if results.isEmpty then ⟨none, [], "none", none, none⟩
  else
    let best_similarity := (results.headD (emptyChunk, 0)).2
    if best_similarity < threshold then
      ⟨none, [], "low", some best_similarity, none⟩
    else
      let srg := (results.filter (passSim threshold)).map (fun r => SR.mk r.1 r.2)
      if srg.isEmpty then ⟨none, [], "low", none, none⟩
      else if s.groq_available then
        let g := GroqClient.generate_answer_with_sources s.groq_available oracle srg
        if truthyOpt g.answer then
          ⟨g.answer, g.sources, g.confidence, some best_similarity, some g.refined⟩
        else fallbackAnswer threshold best_similarity results
      else fallbackAnswer threshold best_similarity results

/-- State of the dense RAGSystem: the FAISS index as an optional list of
vectors, and the chunk list. -/
structure RAGSystem where
  index : Option (List (List ℚ))
  chunks : List Chunk

/-- RAGSystem.search(query, top_k): empty when the index is unset or holds no
vectors; otherwise the min(top_k, ntotal) nearest vectors by ascending L2
distance (embed and dist are the library black boxes), resolved to chunks
under the same index bound guard as the source loop. -/
def RAGSystem.search (s : RAGSystem) (embed : String → List ℚ)
    (dist : List ℚ → List ℚ → ℚ) (query : String) (top_k : Nat) :
    List (Chunk × ℚ) :=
  match s.index with
  | none => []
  | some vecs =>
    if vecs.length = 0 then []
    else
      let dists := vecs.map (dist (embed query))
      ((argsortAsc dists).take (min top_k vecs.length)).filterMap
        (fun idx =>
          if idx < s.chunks.length then
            some (s.chunks.getD idx emptyChunk, dists.getD idx 0)
          else none)

/-- A source dictionary of the dense system: page, source and distance keys. -/
structure DSource where
  page : Option Nat
  src : String
  distance : ℚ
deriving DecidableEq

/-- Return dictionary of RAGSystem.generate_answer; the distance key is
present only on some paths. -/
structure DAnswer where
  answer : Option String
  sources : List DSource
  confidence : String
  distance : Option ℚ
deriving DecidableEq

/-- Boolean form of the dense threshold test distance <= distance_threshold. -/
def passDist (t : ℚ) (r : Chunk × ℚ) : Bool := decide (r.2 ≤ t)

/-- RAGSystem.generate_answer(query, top_k, distance_threshold): confidence
none on empty results, low when the best distance exceeds the threshold, else
join the passing texts among the first two results; high confidence below
0.8. -/
def RAGSystem.generate_answer (s : RAGSystem) (embed : String → List ℚ)
    (dist : List ℚ → List ℚ → ℚ) (query : String) (top_k : Nat)
    (distance_threshold : ℚ) : DAnswer :=
  let results := s.search embed dist query top_k
  if results.isEmpty then ⟨none, [], "none", none⟩
  else
    let best_distance := (results.headD (emptyChunk, 0)).2
    if distance_threshold < best_distance then
      ⟨none, [], "low", some best_distance⟩
    else
      let pairs := (results.take 2).filter (passDist distance_threshold)
      if pairs.isEmpty then ⟨none, [], "low", none⟩
      else
        ⟨some (String.intercalate "\n\n" (pairs.map (fun r => r.1.text))),
          pairs.map (fun r =>
            DSource.mk r.1.metadata.page_number (r.1.metadata.source.getD "") r.2),
          if best_distance < mkRat 4 5 then "high" else "medium",
          some best_distance⟩

/-- Strict ascending lexicographic order on positions used to state the
output order of the stable argsort: smaller score first, equal scores in
ascending position order. -/
def lexLt (sims : List ℚ) (i j : Nat) : Prop :=
  sims.getD i 0 < sims.getD j 0 ∨ (sims.getD i 0 = sims.getD j 0 ∧ i < j)

/-- Ranking order of the search output: larger score first, equal scores in
descending position order (the reversal of the stable ascending argsort). -/
def lexGt (sims : List ℚ) (i j : Nat) : Prop :=
  sims.getD j 0 < sims.getD i 0 ∨ (sims.getD i 0 = sims.getD j 0 ∧ j < i)

/-- Concrete metadata used by the evaluation witnesses. -/
def mdEx : Metadata := ⟨some 3, some "doc.pdf"⟩

/-- Concrete chunk at corpus position 0 in the witness corpus. -/
def chunkA : Chunk := ⟨"alpha", mdEx⟩

/-- Concrete chunk at corpus position 1 in the witness corpus. -/
def chunkB : Chunk := ⟨"beta", mdEx⟩

/-- Constant fitted vectorizer used by the witnesses. -/
def vecConst : String → List ℚ := fun _ => [1]

/-- Constant cosine scorer used by the witnesses: every row scores 1. -/
def cosConst : List ℚ → List ℚ → ℚ := fun _ _ => 1

/-- Witness state: two chunks, a two-row matrix, Groq unavailable. -/
def sEx : RAGSystemLite := ⟨vecConst, [chunkA, chunkB], some [[1], [1]], false⟩

/-- Witness state: one chunk, a one-row matrix, Groq unavailable. -/
def sOne : RAGSystemLite := ⟨vecConst, [chunkA], some [[1]], false⟩

/-- Witness state: a freshly initialised instance (no chunks, no matrix). -/
def sFresh : RAGSystemLite := ⟨vecConst, [], none, false⟩

/-- Witness directory whose chunks pickle is missing while the vectorizer and
a one-row matrix are present. -/
def dirBad : IndexDir := ⟨some vecConst, some (some [[1]]), none⟩

/-- Witness directory with all three artifacts present and consistent. -/
def dirGood : IndexDir := ⟨some vecConst, some (some [[1]]), some [chunkA]⟩

/-- Witness state for the dense system: two vectors, two chunks. -/
def dEx : RAGSystem := ⟨some [[1], [1]], [chunkA, chunkB]⟩

/-- Membership in a stable insertion: the element is the inserted position or
was already there. -/
theorem mem_argInsert {sims : List ℚ} {i : Nat} :
    ∀ {l : List Nat} {x : Nat}, x ∈ argInsert sims i l → x = i ∨ x ∈ l := by
  intro l
  induction l with
  | nil =>
    intro x hx
    simp only [argInsert, List.mem_singleton] at hx
    exact Or.inl hx
  | cons j rest ih =>
    intro x hx
    simp only [argInsert] at hx
    split at hx
    · rcases List.mem_cons.mp hx with h1 | h1
      · exact Or.inr (List.mem_cons.mpr (Or.inl h1))
      · rcases ih h1 with h2 | h2
        · exact Or.inl h2
        · exact Or.inr (List.mem_cons.mpr (Or.inr h2))
    · rcases List.mem_cons.mp hx with h1 | h1
      · exact Or.inl h1
      · exact Or.inr h1

/-- Inserting a position larger than every present position into an
ascending run keeps the run ascending in the stable lexicographic order. -/
theorem argInsert_pairwise {sims : List ℚ} {i : Nat} :
    ∀ {l : List Nat}, l.Pairwise (lexLt sims) → (∀ j ∈ l, j < i) →
      (argInsert sims i l).Pairwise (lexLt sims) := by
  intro l
  induction l with
  | nil =>
    intro _ _
    simp [argInsert]
  | cons j rest ih =>
    intro hp hb
    rcases List.pairwise_cons.mp hp with ⟨hj, hrest⟩
    by_cases hle : sims.getD j 0 ≤ sims.getD i 0
    · simp only [argInsert, hle, if_true]
      refine List.pairwise_cons.mpr ⟨?_, ih hrest (fun x hx => hb x (List.mem_cons_of_mem j hx))⟩
      intro x hx
      rcases mem_argInsert hx with h1 | h1
      · subst h1
        rcases lt_or_eq_of_le hle with h2 | h2
        · exact Or.inl h2
        · exact Or.inr ⟨h2, hb j (List.mem_cons_self j rest)⟩
      · exact hj x h1
    · have hlt : sims.getD i 0 < sims.getD j 0 := not_le.mp hle
      simp only [argInsert, hle, if_false]
      refine List.pairwise_cons.mpr ⟨?_, hp⟩
      intro x hx
      rcases List.mem_cons.mp hx with h1 | h1
      · subst h1
        exact Or.inl hlt
      · rcases hj x h1 with h2 | h2
        · exact Or.inl (lt_trans hlt h2)
        · exact Or.inl (lt_of_lt_of_le hlt (le_of_eq h2.1))

/-- Stable insertion is a permutation of consing. -/
theorem argInsert_perm (sims : List ℚ) (i : Nat) :
    ∀ l : List Nat, argInsert sims i l ~ i :: l := by
  intro l
  induction l with
  | nil => simp [argInsert]
  | cons j rest ih =>
    by_cases hle : sims.getD j 0 ≤ sims.getD i 0
    · simp only [argInsert, hle, if_true]
      exact (ih.cons j).trans (List.Perm.swap i j rest)
    · simp only [argInsert]
      rw [if_neg hle]

/-- The insertion fold is a permutation of appending the processed positions. -/
theorem foldl_argInsert_perm (sims : List ℚ) :
    ∀ (is acc : List Nat),
      (is.foldl (fun a i => argInsert sims i a) acc) ~ is ++ acc := by
  intro is
  induction is with
  | nil => intro acc; simp
  | cons i rest ih =>
    intro acc
    calc rest.foldl (fun a j => argInsert sims j a) (argInsert sims i acc)
        ~ rest ++ argInsert sims i acc := ih (argInsert sims i acc)
      _ ~ rest ++ (i :: acc) := List.Perm.append_left rest (argInsert_perm sims i acc)
      _ ~ i :: (rest ++ acc) := List.perm_middle

/-- Folding stable insertions of strictly increasing positions over an
ascending accumulator whose positions are all smaller yields an ascending
run. -/
theorem foldl_argInsert_pairwise (sims : List ℚ) :
    ∀ (is acc : List Nat), acc.Pairwise (lexLt sims) →
      (∀ j ∈ acc, ∀ i ∈ is, j < i) → is.Pairwise (· < ·) →
      (is.foldl (fun a i => argInsert sims i a) acc).Pairwise (lexLt sims) := by
  intro is
  induction is with
  | nil => intro acc hacc _ _; exact hacc
  | cons i rest ih =>
    intro acc hacc hb his
    rcases List.pairwise_cons.mp his with ⟨hi, hrest⟩
    refine ih (argInsert sims i acc) ?_ ?_ hrest
    · exact argInsert_pairwise hacc (fun j hj => hb j hj i (List.mem_cons_self i rest))
    · intro j hj x hx
      rcases mem_argInsert hj with h1 | h1
      · subst h1; exact hi x hx
      · exact hb j h1 x (List.mem_cons_of_mem i hx)

/-- The stable argsort permutes the positions 0..n-1. -/
theorem argsortAsc_perm (sims : List ℚ) :
    argsortAsc sims ~ List.range sims.length := by
  simpa [argsortAsc] using foldl_argInsert_perm sims (List.range sims.length) []

/-- The stable argsort output is ascending in the lexicographic order:
by score, then by position. -/
theorem argsortAsc_pairwise (sims : List ℚ) :
    (argsortAsc sims).Pairwise (lexLt sims) :=
  foldl_argInsert_pairwise sims (List.range sims.length) []
    (List.Pairwise.nil) (by simp) (List.pairwise_lt_range _)

/-- The stable argsort returns one position per score. -/
theorem length_argsortAsc (sims : List ℚ) :
    (argsortAsc sims).length = sims.length := by
  simpa using (argsortAsc_perm sims).length_eq

/-- Every position returned by the stable argsort is in range. -/
theorem mem_argsortAsc {sims : List ℚ} {x : Nat} (hx : x ∈ argsortAsc sims) :
    x < sims.length := by
  have h := (argsortAsc_perm sims).mem_iff.mp hx
  exact List.mem_range.mp h

/-- A Python tail slice is a sublist. -/
theorem pySliceLast_sublist (l : List Nat) (k : Nat) : pySliceLast l k <+ l := by
  unfold pySliceLast
  split
  · exact List.Sublist.refl l
  · exact List.drop_sublist _ l

/-- Length of a Python tail slice with a positive count. -/
theorem length_pySliceLast (l : List Nat) {k : Nat} (hk : k ≠ 0) :
    (pySliceLast l k).length = min k l.length := by
  simp only [pySliceLast, hk, if_false, List.length_drop]
  omega

/-- The ranking positions are ordered by descending score, equal scores in
descending position order (reversal of the stable ascending argsort). -/
theorem topIndices_pairwise (sims : List ℚ) (k : Nat) :
    (topIndices sims k).Pairwise (lexGt sims) := by
  unfold topIndices
  rw [List.pairwise_reverse]
  have h := List.Pairwise.sublist (pySliceLast_sublist (argsortAsc sims) k)
    (argsortAsc_pairwise sims)
  refine h.imp ?_
  intro a b hab
  rcases hab with h1 | h1
  · exact Or.inl h1
  · exact Or.inr ⟨h1.1.symm, h1.2⟩

/-- Every ranking position is in range of the score list. -/
theorem mem_topIndices {sims : List ℚ} {k x : Nat} (hx : x ∈ topIndices sims k) :
    x < sims.length := by
  unfold topIndices at hx
  rw [List.mem_reverse] at hx
  exact mem_argsortAsc ((pySliceLast_sublist _ _).subset hx)

/-- With a positive top_k the ranking has min top_k n positions. -/
theorem length_topIndices (sims : List ℚ) {k : Nat} (hk : k ≠ 0) :
    (topIndices sims k).length = min k sims.length := by
  simp [topIndices, length_pySliceLast _ hk, length_argsortAsc]

/-- Unfolding of RAGSystemLite.search on a set matrix and a non-empty chunk
list. -/
theorem search_eq (s : RAGSystemLite) (cosSim : List ℚ → List ℚ → ℚ)
    (q : String) (k : Nat) {m : List (List ℚ)} (hm : s.tfidf_matrix = some m)
    (hne : s.chunks.length ≠ 0) :
    s.search cosSim q k =
      (topIndices (simsOf cosSim s q m) k).filterMap
        (resolve s (simsOf cosSim s q m)) := by
  unfold RAGSystemLite.search
  rw [hm]
  simp [hne]

/-- The search output is ordered by descending similarity score. -/
theorem search_pairwise (s : RAGSystemLite) (cosSim : List ℚ → List ℚ → ℚ)
    (q : String) (k : Nat) :
    (s.search cosSim q k).Pairwise (fun a b : Chunk × ℚ => b.2 ≤ a.2) := by
  unfold RAGSystemLite.search
  cases hm : s.tfidf_matrix with
  | none => simp
  | some m =>
    by_cases hne : s.chunks.length = 0
    · simp [hne]
    · simp only [hne, if_false]
      apply List.pairwise_filterMap.mpr
      refine (topIndices_pairwise (simsOf cosSim s q m) k).imp ?_
      intro i j hij x hx y hy
      simp only [Option.mem_def, resolve] at hx hy
      split at hx
      · split at hy
        · cases hx
          cases hy
          rcases hij with h1 | h1
          · exact le_of_lt h1
          · exact le_of_eq h1.1.symm
        · cases hy
      · cases hx

/-- On a sorted-descending list the threshold filter is a prefix:
filtering equals takeWhile. -/
theorem filter_passSim_eq_takeWhile (t : ℚ) :
    ∀ {l : List (Chunk × ℚ)}, l.Pairwise (fun a b => b.2 ≤ a.2) →
      l.filter (passSim t) = l.takeWhile (passSim t) := by
  intro l
  induction l with
  | nil => intro _; rfl
  | cons a l ih =>
    intro hp
    rcases List.pairwise_cons.mp hp with ⟨ha, hl⟩
    by_cases hpa : passSim t a = true
    · simp [List.filter_cons, List.takeWhile_cons, hpa, ih hl]
    · have hfa : passSim t a = false := Bool.eq_false_iff.mpr hpa
      have hall : ∀ b ∈ l, ¬(passSim t b = true) := by
        intro b hb hcontra
        apply hpa
        simp only [passSim, decide_eq_true_eq] at hcontra ⊢
        exact le_trans hcontra (ha b hb)
      simp only [List.filter_cons, hfa, if_neg, List.takeWhile_cons, Bool.false_eq_true]
      rw [List.filter_eq_nil_iff.mpr hall]
      simp

/-- Filtering a sorted-descending list after truncation equals truncating the
filtered list. -/
theorem filter_take_comm (t : ℚ) {l : List (Chunk × ℚ)}
    (hp : l.Pairwise (fun a b => b.2 ≤ a.2)) (n : Nat) :
    (l.take n).filter (passSim t) = (l.filter (passSim t)).take n := by
  have h1 : l.filter (passSim t) = l.takeWhile (passSim t) :=
    filter_passSim_eq_takeWhile t hp
  have h2 : (l.take n).filter (passSim t) = (l.take n).takeWhile (passSim t) :=
    filter_passSim_eq_takeWhile t
      (List.Pairwise.sublist (List.take_sublist n l) hp)
  rw [h1, h2, List.take_takeWhile]

/-- Membership in a shorter truncation implies membership in a longer one. -/
theorem mem_take_mono {α : Type} {m n : Nat} (h : m ≤ n) {l : List α} {x : α}
    (hx : x ∈ l.take m) : x ∈ l.take n := by
  have heq : l.take m = (l.take n).take m := by
    rw [List.take_take, Nat.min_eq_left h]
  rw [heq] at hx
  exact List.take_subset m (l.take n) hx

/-- A filterMap whose function succeeds on every element preserves length. -/
theorem length_filterMap_all_some {α β : Type} (f : α → Option β) :
    ∀ {l : List α}, (∀ a ∈ l, (f a).isSome = true) →
      (l.filterMap f).length = l.length := by
  intro l
  induction l with
  | nil => intro _; rfl
  | cons a l ih =>
    intro h
    rcases Option.isSome_iff_exists.mp (h a (List.mem_cons_self a l)) with ⟨b, hb⟩
    simp [List.filterMap_cons, hb, ih (fun x hx => h x (List.mem_cons_of_mem a hx))]

/-- Claim C8: split_text_into_chunks is invariant under the configured
chunk_overlap: the paragraph-accumulation algorithm never reads it, so any
two overlap values yield identical chunk sequences. -/
theorem C8_overlap_inert (cs o1 o2 : Nat) (text : String) (md : Metadata) :
    (PDFProcessor.mk cs o1).split_text_into_chunks text md =
      (PDFProcessor.mk cs o2).split_text_into_chunks text md := rfl

/-- Claim C9: saving an index and loading it into a fresh instance succeeds
and yields identical search results (same chunks, same order, same scores)
for every query, every top_k and every cosine scorer. -/
theorem C9_roundtrip (fresh s : RAGSystemLite) (cosSim : List ℚ → List ℚ → ℚ)
    (q : String) (k : Nat) :
    (fresh.load_index s.save_index).2 = true ∧
      ((fresh.load_index s.save_index).1).search cosSim q k =
        s.search cosSim q k :=
  ⟨rfl, rfl⟩

/-- Claim C2 (amended): on a built lexical index, search returns exactly the
chunks and scores at the ranking positions, the ranking positions are ordered
by descending similarity, and on equal similarity the LATER corpus position
comes first (the stable ascending argsort is sliced and reversed); hence the
result scores are descending. -/
theorem C2_search_order (s : RAGSystemLite) (cosSim : List ℚ → List ℚ → ℚ)
    (q : String) (k : Nat) {m : List (List ℚ)} (hm : s.tfidf_matrix = some m)
    (hne : s.chunks.length ≠ 0) :
    s.search cosSim q k =
        (topIndices (simsOf cosSim s q m) k).filterMap
          (resolve s (simsOf cosSim s q m)) ∧
      (topIndices (simsOf cosSim s q m) k).Pairwise
        (lexGt (simsOf cosSim s q m)) ∧
      (s.search cosSim q k).Pairwise (fun a b : Chunk × ℚ => b.2 ≤ a.2) :=
  ⟨search_eq s cosSim q k hm hne, topIndices_pairwise _ k,
    search_pairwise s cosSim q k⟩

/-- Claim C2 counterexample: a two-chunk corpus in which both chunks have the
same similarity to the query; search ranks the chunk at corpus position 1
first, so equal scores are not broken by earlier corpus order. -/
theorem C2_counterexample :
    sEx.chunks = [chunkA, chunkB] ∧
      sEx.search cosConst "" 2 = [(chunkB, 1), (chunkA, 1)] ∧
      chunkB ≠ chunkA :=
  ⟨rfl, by decide, by decide⟩

/-- Claim C2 witness: the amended ordering theorem evaluated on a concrete
two-chunk index. -/
theorem C2_witness :
    sEx.tfidf_matrix = some [[1], [1]] ∧ sEx.chunks.length ≠ 0 ∧
      (sEx.search cosConst "" 2 =
          (topIndices (simsOf cosConst sEx "" [[1], [1]]) 2).filterMap
            (resolve sEx (simsOf cosConst sEx "" [[1], [1]])) ∧
        (topIndices (simsOf cosConst sEx "" [[1], [1]]) 2).Pairwise
          (lexGt (simsOf cosConst sEx "" [[1], [1]])) ∧
        (sEx.search cosConst "" 2).Pairwise (fun a b : Chunk × ℚ => b.2 ≤ a.2)) :=
  ⟨rfl, by decide, C2_search_order sEx cosConst "" 2 rfl (by decide)⟩

/-- Result count of the lexical search: on a built index (matrix rows =
chunk count) and a positive top_k, exactly min top_k n results. -/
theorem lite_search_length (s : RAGSystemLite) (cosSim : List ℚ → List ℚ → ℚ)
    (q : String) (k : Nat) {m : List (List ℚ)} (hm : s.tfidf_matrix = some m)
    (hrows : m.length = s.chunks.length) (hk : k ≠ 0) :
    (s.search cosSim q k).length = min k s.chunks.length := by
  by_cases hne : s.chunks.length = 0
  · unfold RAGSystemLite.search
    rw [hm]
    simp [hne]
  · rw [search_eq s cosSim q k hm hne]
    have hlen : (simsOf cosSim s q m).length = s.chunks.length := by
      simp [simsOf, hrows]
    have hall : ∀ idx ∈ topIndices (simsOf cosSim s q m) k,
        ((resolve s (simsOf cosSim s q m)) idx).isSome = true := by
      intro idx hidx
      have hb := mem_topIndices hidx
      rw [hlen] at hb
      simp [resolve, hb]
    rw [length_filterMap_all_some _ hall, length_topIndices _ hk, hlen]

/-- Unfolding of RAGSystem.search on a set index with at least one vector. -/
theorem dense_search_eq (s : RAGSystem) (embed : String → List ℚ)
    (dist : List ℚ → List ℚ → ℚ) (q : String) (k : Nat)
    {vecs : List (List ℚ)} (hm : s.index = some vecs)
    (hne : vecs.length ≠ 0) :
    s.search embed dist q k =
      ((argsortAsc (vecs.map (dist (embed q)))).take (min k vecs.length)).filterMap
        (fun idx => if idx < s.chunks.length then
          some (s.chunks.getD idx emptyChunk, (vecs.map (dist (embed q))).getD idx 0)
          else none) := by
  unfold RAGSystem.search
  rw [hm]
  simp [hne]

/-- Result count of the dense search: on a built index (one vector per
chunk), exactly min top_k n results for every top_k, including zero, because
the code passes min(top_k, ntotal) to the FAISS query. -/
theorem dense_search_length (s : RAGSystem) (embed : String → List ℚ)
    (dist : List ℚ → List ℚ → ℚ) (q : String) (k : Nat)
    {vecs : List (List ℚ)} (hm : s.index = some vecs)
    (hrows : vecs.length = s.chunks.length) :
    (s.search embed dist q k).length = min k s.chunks.length := by
  by_cases hne : vecs.length = 0
  · have hc0 : s.chunks.length = 0 := by rw [← hrows]; exact hne
    unfold RAGSystem.search
    rw [hm]
    simp [hne, hc0]
  · rw [dense_search_eq s embed dist q k hm hne]
    have hall : ∀ idx ∈ (argsortAsc (vecs.map (dist (embed q)))).take (min k vecs.length),
        ((fun idx => if idx < s.chunks.length then
            some (s.chunks.getD idx emptyChunk, (vecs.map (dist (embed q))).getD idx 0)
            else none) idx).isSome = true := by
      intro idx hidx
      have h1 := (List.take_subset _ _) hidx
      have h2 := mem_argsortAsc h1
      rw [List.length_map, hrows] at h2
      simp [h2]
    rw [length_filterMap_all_some _ hall, List.length_take, length_argsortAsc,
      List.length_map, hrows]
    omega

/-- Claim C7 (amended): neither search raises (both are total with guarded
accesses).  On a built lexical index, search returns exactly min top_k n
results for every positive top_k — hence at most top_k, and exactly n when
n < top_k — but with top_k = 0 the Python slice [-0:] selects the whole
argsort array and all n results are returned (see the counterexample).  The
dense search returns exactly min top_k n results for every top_k including
zero, so it satisfies the claim as stated. -/
theorem C7_search_length :
    (∀ (s : RAGSystemLite) (cosSim : List ℚ → List ℚ → ℚ) (q : String)
        (k : Nat) (m : List (List ℚ)), s.tfidf_matrix = some m →
        m.length = s.chunks.length → k ≠ 0 →
        (s.search cosSim q k).length = min k s.chunks.length) ∧
      (∀ (s : RAGSystem) (embed : String → List ℚ)
          (dist : List ℚ → List ℚ → ℚ) (q : String) (k : Nat)
          (vecs : List (List ℚ)), s.index = some vecs →
          vecs.length = s.chunks.length →
          (s.search embed dist q k).length = min k s.chunks.length) :=
  ⟨fun s cosSim q k _m hm hrows hk => lite_search_length s cosSim q k hm hrows hk,
    fun s embed dist q k _vecs hm hrows => dense_search_length s embed dist q k hm hrows⟩

/-- Claim C7 counterexample: on a lexical index built from one chunk, search
with top_k = 0 returns one result, not at most zero, because the Python
slice similarities.argsort()[-0:] is the whole array. -/
theorem C7_counterexample :
    (sOne.search cosConst "" 0).length = 1 ∧
      ¬ (sOne.search cosConst "" 0).length ≤ 0 :=
  ⟨by decide, by decide⟩

/-- Claim C7 witness: the amended length theorem evaluated on a one-chunk
lexical index with top_k = 1, and on a two-vector dense index with
top_k = 0, where the dense search indeed returns no results. -/
theorem C7_witness :
    sOne.tfidf_matrix = some [[1]] ∧
      ([[(1 : ℚ)]] : List (List ℚ)).length = sOne.chunks.length ∧
      (1 : Nat) ≠ 0 ∧
      (sOne.search cosConst "" 1).length = min 1 sOne.chunks.length ∧
      dEx.index = some [[1], [1]] ∧
      ([[(1 : ℚ)], [1]] : List (List ℚ)).length = dEx.chunks.length ∧
      (dEx.search vecConst cosConst "" 0).length = min 0 dEx.chunks.length :=
  ⟨rfl, rfl, by decide,
    C7_search_length.1 sOne cosConst "" 1 [[1]] rfl rfl (by decide),
    rfl, rfl,
    C7_search_length.2 dEx vecConst cosConst "" 0 [[1], [1]] rfl rfl⟩

/-- A flushed buffer yields a good chunk: within the size bound, or an
oversized member of the allowed paragraph set. -/
theorem flushGood {cs : Nat} {S : List String} (md : Metadata)
    {current : String}
    (hcur : current = "" ∨ current.length ≤ cs ∨ current ∈ S) :
    (Chunk.mk current md).text.length ≤ cs ∨
      (cs < (Chunk.mk current md).text.length ∧ (Chunk.mk current md).text ∈ S) := by
  rcases hcur with h | h | h
  · subst h
    exact Or.inl (Nat.zero_le cs)
  · exact Or.inl h
  · by_cases h3 : current.length ≤ cs
    · exact Or.inl h3
    · exact Or.inr ⟨not_le.mp h3, h⟩

/-- Invariant of the accumulation loop: if every already-emitted chunk is
within the bound or is an oversized stripped paragraph from S, the buffer is
empty, bounded or a stripped paragraph from S, and every remaining paragraph
strips into S, then every emitted chunk is within the bound or is an
oversized member of S. -/
theorem chunkAccum_bound (cs : Nat) (md : Metadata) (S : List String) :
    ∀ (ps : List String) (chunks : List Chunk) (current : String),
      (∀ c ∈ chunks, c.text.length ≤ cs ∨ (cs < c.text.length ∧ c.text ∈ S)) →
      (current = "" ∨ current.length ≤ cs ∨ current ∈ S) →
      (∀ q ∈ ps, pyStrip q ∈ S) →
      ∀ c ∈ chunkAccum cs md ps chunks current,
        c.text.length ≤ cs ∨ (cs < c.text.length ∧ c.text ∈ S) := by
  intro ps
  induction ps with
  | nil =>
    intro chunks current hch hcur _ c hc
    by_cases hne : current = ""
    · rw [chunkAccum, if_neg (not_not_intro hne)] at hc
      exact hch c hc
    · rw [chunkAccum, if_pos hne] at hc
      rcases List.mem_append.mp hc with h1 | h1
      · exact hch c h1
      · have hceq : c = ⟨current, md⟩ := List.mem_singleton.mp h1
        subst hceq
        exact flushGood md hcur
  | cons para rest ih =>
    intro chunks current hch hcur hps c hc
    simp only [chunkAccum] at hc
    by_cases hp0 : pyStrip para = ""
    · rw [if_pos hp0] at hc
      exact ih chunks current hch hcur
        (fun q hq => hps q (List.mem_cons_of_mem _ hq)) c hc
    · rw [if_neg hp0] at hc
      by_cases hfit : current.length + (pyStrip para).length + 2 ≤ cs
      · rw [if_pos hfit] at hc
        by_cases hne : current = ""
        · rw [if_neg (not_not_intro hne)] at hc
          refine ih chunks (pyStrip para) hch (Or.inr (Or.inl ?_))
            (fun q hq => hps q (List.mem_cons_of_mem _ hq)) c hc
          have hz : current.length = 0 := by rw [hne]; rfl
          omega
        · rw [if_pos hne] at hc
          refine ih chunks (current ++ "\n\n" ++ pyStrip para) hch
            (Or.inr (Or.inl ?_))
            (fun q hq => hps q (List.mem_cons_of_mem _ hq)) c hc
          have h2 : ("\n\n" : String).length = 2 := rfl
          have hlen : (current ++ "\n\n" ++ pyStrip para).length =
              current.length + 2 + (pyStrip para).length := by
            simp [String.length_append, h2]
          omega
      · rw [if_neg hfit] at hc
        by_cases hne : current = ""
        · rw [if_neg (not_not_intro hne)] at hc
          exact ih chunks (pyStrip para) hch
            (Or.inr (Or.inr (hps para (List.mem_cons_self _ _))))
            (fun q hq => hps q (List.mem_cons_of_mem _ hq)) c hc
        · rw [if_pos hne] at hc
          refine ih (chunks ++ [⟨current, md⟩]) (pyStrip para) ?_
            (Or.inr (Or.inr (hps para (List.mem_cons_self _ _))))
            (fun q hq => hps q (List.mem_cons_of_mem _ hq)) c hc
          intro d hd
          rcases List.mem_append.mp hd with h1 | h1
          · exact hch d h1
          · have hdeq : d = ⟨current, md⟩ := List.mem_singleton.mp h1
            subst hdeq
            exact flushGood md hcur

/-- Claim C6: every chunk emitted by split_text_into_chunks is within the
configured chunk_size, except that an oversized chunk is exactly a single
stripped paragraph of the input, emitted whole. -/
theorem C6_chunk_bound (proc : PDFProcessor) (text : String) (md : Metadata)
    (c : Chunk) (hc : c ∈ proc.split_text_into_chunks text md) :
    c.text.length ≤ proc.chunk_size ∨
      (proc.chunk_size < c.text.length ∧
        c.text ∈ (splitParagraphs text).map pyStrip) := by
  refine chunkAccum_bound proc.chunk_size md ((splitParagraphs text).map pyStrip)
    (splitParagraphs text) [] "" ?_ (Or.inl rfl) ?_ c hc
  · intro d hd
    cases hd
  · intro q hq
    exact List.mem_map_of_mem pyStrip hq

/-- Claim C6 witness: a seven-character single paragraph with chunk_size 5 is
emitted whole as an oversized chunk. -/
theorem C6_witness :
    (Chunk.mk "aaaaaaa" mdEx) ∈
        (PDFProcessor.mk 5 0).split_text_into_chunks "aaaaaaa" mdEx ∧
      ((Chunk.mk "aaaaaaa" mdEx).text.length ≤ (PDFProcessor.mk 5 0).chunk_size ∨
        ((PDFProcessor.mk 5 0).chunk_size < (Chunk.mk "aaaaaaa" mdEx).text.length ∧
          (Chunk.mk "aaaaaaa" mdEx).text ∈ (splitParagraphs "aaaaaaa").map pyStrip)) :=
  ⟨by decide, C6_chunk_bound (PDFProcessor.mk 5 0) "aaaaaaa" mdEx
    (Chunk.mk "aaaaaaa" mdEx) (by decide)⟩

/-- Claim C1 (amended): build_index preserves the cardinality invariant and
establishes it on non-empty input; loading a directory saved from any state
succeeds and preserves the invariant; load_index establishes the invariant
whenever all three artifacts are present and the matrix and chunk artifacts
have equal cardinality.  After a failed or inconsistent load the invariant
can be violated, because load_index overwrites fields sequentially with no
rollback and no cardinality check: see the counterexample. -/
theorem C1_invariant :
    (∀ (s : RAGSystemLite) (fit : List String → String → List ℚ)
        (cs : List Chunk), s.indexInv → (s.build_index fit cs).indexInv) ∧
      (∀ fresh s : RAGSystemLite,
        (fresh.load_index s.save_index).2 = true ∧
          (s.indexInv → (fresh.load_index s.save_index).1.indexInv)) ∧
      (∀ (s : RAGSystemLite) (dir : IndexDir) (v : String → List ℚ)
          (m : List (List ℚ)) (cs : List Chunk),
        dir.vectorizer = some v → dir.tfidf_matrix = some (some m) →
          dir.chunks = some cs → m.length = cs.length →
          (s.load_index dir).1.indexInv) := by
  refine ⟨?_, ?_, ?_⟩
  · intro s fit cs hinv
    by_cases hemp : cs.isEmpty = true
    · unfold RAGSystemLite.build_index
      rw [if_pos hemp]
      exact hinv
    · unfold RAGSystemLite.build_index
      rw [if_neg hemp]
      intro m hm
      simp only [Option.some.injEq] at hm
      rw [← hm]
      simp [List.length_map]
  · intro fresh s
    refine ⟨rfl, ?_⟩
    intro hinv m hm
    exact hinv m hm
  · intro s dir v m cs hv hm hc hlen
    unfold RAGSystemLite.load_index
    rw [hv, hm, hc]
    intro m2 hm2
    simp only [Option.some.injEq] at hm2
    rw [← hm2]
    exact hlen

/-- Claim C1 counterexample: loading a directory whose vectorizer and matrix
pickles are present (one matrix row) but whose chunks pickle is missing
returns false, yet leaves the fresh instance with a one-row matrix against an
empty chunk list, violating the cardinality invariant. -/
theorem C1_counterexample :
    (sFresh.load_index dirBad).2 = false ∧
      ¬ (sFresh.load_index dirBad).1.indexInv := by
  refine ⟨rfl, ?_⟩
  intro h
  exact absurd (h [[1]] rfl) (by decide)

/-- Claim C1 witness: the amended theorem applied to a consistent directory
loaded into a fresh instance. -/
theorem C1_witness :
    dirGood.vectorizer = some vecConst ∧
      dirGood.tfidf_matrix = some (some [[1]]) ∧
      dirGood.chunks = some [chunkA] ∧
      ([[(1 : ℚ)]] : List (List ℚ)).length = [chunkA].length ∧
      (sFresh.load_index dirGood).1.indexInv :=
  ⟨rfl, rfl, rfl, rfl,
    C1_invariant.2.2 sFresh dirGood vecConst [[1]] [chunkA] rfl rfl rfl rfl⟩

/-- The sources of generate_answer_with_sources are always built from the
first three search results, on both the refined and the fallback branch. -/
theorem gws_sources_eq (available : Bool) (oracle : Option String)
    (srs : List SR) :
    (GroqClient.generate_answer_with_sources available oracle srs).sources =
      (srs.take 3).map
        (fun r => Source.mk r.chunk.metadata.page_number none r.similarity) := by
  simp only [GroqClient.generate_answer_with_sources]
  split <;> rfl

/-- When the refined answer is falsy, generate_answer_with_sources returns
the blank-line join of the first two chunk texts, unrefined, medium
confidence. -/
theorem gws_untruthy_eq (available : Bool) (oracle : Option String)
    (srs : List SR)
    (h : truthyOpt (GroqClient.refine_answer available oracle srs) = false) :
    GroqClient.generate_answer_with_sources available oracle srs =
      ⟨some (String.intercalate "\n\n" ((srs.take 2).map (fun r => r.chunk.text))),
        (srs.take 3).map
          (fun r => Source.mk r.chunk.metadata.page_number none r.similarity),
        false, "medium"⟩ := by
  simp only [GroqClient.generate_answer_with_sources]
  rw [h]
  rfl

/-- generate_answer_with_sources reports high or medium confidence, never
low or none. -/
theorem gws_confidence_cases (available : Bool) (oracle : Option String)
    (srs : List SR) :
    (GroqClient.generate_answer_with_sources available oracle srs).confidence = "high" ∨
      (GroqClient.generate_answer_with_sources available oracle srs).confidence =
        "medium" := by
  simp only [GroqClient.generate_answer_with_sources]
  split
  · exact Or.inl rfl
  · exact Or.inr rfl

/-- With an available client and non-empty results, refine_answer is exactly
the API call outcome. -/
theorem refine_eq_oracle (oracle : Option String) (srs : List SR)
    (h : srs.isEmpty = false) :
    GroqClient.refine_answer true oracle srs = oracle := by
  simp only [GroqClient.refine_answer]
  rw [h]
  rfl

/-- Unfolded form of the fallback composer when some pair passes. -/
theorem fallbackAnswer_eq (t best : ℚ) (results : List (Chunk × ℚ))
    (hne : ((results.take 2).filter (passSim t)).isEmpty = false) :
    fallbackAnswer t best results =
      ⟨some (String.intercalate "\n\n"
          (((results.take 2).filter (passSim t)).map (fun r => r.1.text))),
        ((results.take 2).filter (passSim t)).map (fun r =>
          Source.mk r.1.metadata.page_number (some (r.1.metadata.source.getD "")) r.2),
        if mkRat 3 10 < best then "high" else "medium",
        some best, some false⟩ := by
  simp only [fallbackAnswer]
  rw [hne]
  rfl

/-- When the best result passes the threshold, the first two results always
contain a passing pair. -/
theorem pairs_ne {t sim : ℚ} (c : Chunk) (rest : List (Chunk × ℚ))
    (hpass : t ≤ sim) :
    ((((c, sim) :: rest).take 2).filter (passSim t)).isEmpty = false := by
  have hpc : passSim t (c, sim) = true := by simp [passSim, hpass]
  have h2 : (((c, sim) :: rest).take 2) = (c, sim) :: rest.take 1 := rfl
  rw [h2]
  simp [List.filter_cons, hpc]

/-- When the best result passes, the passing results are non-empty. -/
theorem srg_ne {t sim : ℚ} (c : Chunk) (rest : List (Chunk × ℚ))
    (hpass : t ≤ sim) :
    ((((c, sim) :: rest).filter (passSim t)).map
      (fun r => SR.mk r.1 r.2)).isEmpty = false := by
  have hpc : passSim t (c, sim) = true := by simp [passSim, hpass]
  simp [List.filter_cons, hpc]

/-- When the best result passes and the client is off or its answer is
falsy, generate_answer lands in the shared raw-concatenation fallback. -/
theorem genAnswer_fallback (s : RAGSystemLite) (cosSim : List ℚ → List ℚ → ℚ)
    (oracle : Option String) (q : String) (k : Nat) (t : ℚ) {c : Chunk}
    {sim : ℚ} {rest : List (Chunk × ℚ)}
    (hres : s.search cosSim q k = (c, sim) :: rest) (hpass : t ≤ sim)
    (hoff : s.groq_available = false ∨
      truthyOpt (GroqClient.generate_answer_with_sources s.groq_available oracle
        ((((c, sim) :: rest).filter (passSim t)).map
          (fun r => SR.mk r.1 r.2))).answer = false) :
    s.generate_answer cosSim oracle q k t =
      fallbackAnswer t sim ((c, sim) :: rest) := by
  unfold RAGSystemLite.generate_answer
  rw [hres]
  simp only [List.isEmpty_cons, Bool.false_eq_true, if_false, List.headD_cons,
    if_neg (not_lt.mpr hpass), srg_ne c rest hpass]
  rcases hoff with hg | htr
  · rw [hg]
    rfl
  · cases hg : s.groq_available with
    | false => rfl
    | true =>
      rw [hg] at htr
      rw [htr]
      rfl

/-- When the best result passes, the client is available and its answer is
truthy, generate_answer returns the Groq result with the best similarity. -/
theorem genAnswer_refined (s : RAGSystemLite) (cosSim : List ℚ → List ℚ → ℚ)
    (oracle : Option String) (q : String) (k : Nat) (t : ℚ) {c : Chunk}
    {sim : ℚ} {rest : List (Chunk × ℚ)}
    (hres : s.search cosSim q k = (c, sim) :: rest) (hpass : t ≤ sim)
    (hg : s.groq_available = true)
    (htr : truthyOpt (GroqClient.generate_answer_with_sources true oracle
      ((((c, sim) :: rest).filter (passSim t)).map
        (fun r => SR.mk r.1 r.2))).answer = true) :
    s.generate_answer cosSim oracle q k t =
      (let g := GroqClient.generate_answer_with_sources true oracle
        ((((c, sim) :: rest).filter (passSim t)).map (fun r => SR.mk r.1 r.2))
       ⟨g.answer, g.sources, g.confidence, some sim, some g.refined⟩) := by
  unfold RAGSystemLite.generate_answer
  rw [hres]
  simp only [List.isEmpty_cons, Bool.false_eq_true, if_false, List.headD_cons,
    if_neg (not_lt.mpr hpass), srg_ne c rest hpass, hg, htr]
  rfl

/-- Texts of a prefix of the SR list are the texts of the prefix of the
underlying result list. -/
theorem srg_take_map_text (flt : List (Chunk × ℚ)) (n : Nat) :
    (((flt.map (fun r => SR.mk r.1 r.2)).take n).map (fun r => r.chunk.text)) =
      (flt.take n).map (fun r => r.1.text) := by
  rw [← List.map_take, List.map_map]
  rfl

/-- Source entries of a prefix of the SR list are built from the prefix of
the underlying result list. -/
theorem srg_take_map_source (flt : List (Chunk × ℚ)) (n : Nat) :
    (((flt.map (fun r => SR.mk r.1 r.2)).take n).map
        (fun r => Source.mk r.chunk.metadata.page_number none r.similarity)) =
      (flt.take n).map
        (fun r => Source.mk r.1.metadata.page_number none r.2) := by
  rw [← List.map_take, List.map_map]
  rfl

/-- Claim C3: when the delegate is unavailable or its call produces no truthy
answer, and the best candidate passes the threshold, the answer text is the
blank-line join of the raw texts of the top two passing candidates and
refined is false. -/
theorem C3_fallback_concat (s : RAGSystemLite) (cosSim : List ℚ → List ℚ → ℚ)
    (oracle : Option String) (q : String) (k : Nat) (t : ℚ) {c : Chunk}
    {sim : ℚ} {rest : List (Chunk × ℚ)}
    (hres : s.search cosSim q k = (c, sim) :: rest) (hpass : t ≤ sim)
    (hfail : s.groq_available = false ∨ truthyOpt oracle = false) :
    (s.generate_answer cosSim oracle q k t).answer =
        some (String.intercalate "\n\n"
          ((((s.search cosSim q k).filter (passSim t)).take 2).map
            (fun r => r.1.text))) ∧
      (s.generate_answer cosSim oracle q k t).refined = some false := by
  have hsorted : ((c, sim) :: rest).Pairwise (fun a b : Chunk × ℚ => b.2 ≤ a.2) := by
    rw [← hres]
    exact search_pairwise s cosSim q k
  have hcomm : (((c, sim) :: rest).take 2).filter (passSim t) =
      (((c, sim) :: rest).filter (passSim t)).take 2 := filter_take_comm t hsorted 2
  have hfb : fallbackAnswer t sim ((c, sim) :: rest) =
      ⟨some (String.intercalate "\n\n"
          (((((c, sim) :: rest).filter (passSim t)).take 2).map (fun r => r.1.text))),
        (((((c, sim) :: rest).filter (passSim t)).take 2)).map (fun r =>
          Source.mk r.1.metadata.page_number (some (r.1.metadata.source.getD "")) r.2),
        if mkRat 3 10 < sim then "high" else "medium", some sim, some false⟩ := by
    rw [fallbackAnswer_eq t sim _ (pairs_ne c rest hpass), hcomm]
  rw [hres]
  by_cases hg : s.groq_available = true
  · have hsrne : ((((c, sim) :: rest).filter (passSim t)).map
        (fun r => SR.mk r.1 r.2)).isEmpty = false := srg_ne c rest hpass
    have htor : truthyOpt oracle = false := by
      rcases hfail with h | h
      · rw [hg] at h
        exact absurd h (by decide)
      · exact h
    have hgws := gws_untruthy_eq true oracle
      ((((c, sim) :: rest).filter (passSim t)).map (fun r => SR.mk r.1 r.2))
      (by rw [refine_eq_oracle oracle _ hsrne]; exact htor)
    by_cases htr : truthyOpt (GroqClient.generate_answer_with_sources true oracle
        ((((c, sim) :: rest).filter (passSim t)).map
          (fun r => SR.mk r.1 r.2))).answer = true
    · rw [genAnswer_refined s cosSim oracle q k t hres hpass hg htr]
      simp only [hgws]
      exact ⟨by rw [srg_take_map_text], trivial⟩
    · have htrf : truthyOpt (GroqClient.generate_answer_with_sources
          s.groq_available oracle ((((c, sim) :: rest).filter (passSim t)).map
            (fun r => SR.mk r.1 r.2))).answer = false := by
        rw [hg]
        simpa using htr
      rw [genAnswer_fallback s cosSim oracle q k t hres hpass (Or.inr htrf), hfb]
      exact ⟨rfl, rfl⟩
  · have hgf : s.groq_available = false := by simpa using hg
    rw [genAnswer_fallback s cosSim oracle q k t hres hpass (Or.inl hgf), hfb]
    exact ⟨rfl, rfl⟩

/-- When the best candidate passes the threshold, generate_answer ends with
high or medium confidence and a present answer, on every delegate outcome. -/
theorem genAnswer_pass_shape (s : RAGSystemLite) (cosSim : List ℚ → List ℚ → ℚ)
    (oracle : Option String) (q : String) (k : Nat) (t : ℚ) {c : Chunk}
    {sim : ℚ} {rest : List (Chunk × ℚ)}
    (hres : s.search cosSim q k = (c, sim) :: rest) (hpass : t ≤ sim) :
    ((s.generate_answer cosSim oracle q k t).confidence = "high" ∨
        (s.generate_answer cosSim oracle q k t).confidence = "medium") ∧
      (s.generate_answer cosSim oracle q k t).answer ≠ none := by
  have hfbshape : ((fallbackAnswer t sim ((c, sim) :: rest)).confidence = "high" ∨
      (fallbackAnswer t sim ((c, sim) :: rest)).confidence = "medium") ∧
      (fallbackAnswer t sim ((c, sim) :: rest)).answer ≠ none := by
    rw [fallbackAnswer_eq t sim _ (pairs_ne c rest hpass)]
    constructor
    · by_cases hcut : mkRat 3 10 < sim
      · exact Or.inl (by simp [hcut])
      · exact Or.inr (by simp [hcut])
    · simp
  by_cases hg : s.groq_available = true
  · by_cases htr : truthyOpt (GroqClient.generate_answer_with_sources true oracle
        ((((c, sim) :: rest).filter (passSim t)).map
          (fun r => SR.mk r.1 r.2))).answer = true
    · rw [genAnswer_refined s cosSim oracle q k t hres hpass hg htr]
      constructor
      · exact gws_confidence_cases true oracle _
      · intro hn
        have hn2 : (GroqClient.generate_answer_with_sources true oracle
            ((((c, sim) :: rest).filter (passSim t)).map
              (fun r => SR.mk r.1 r.2))).answer = none := hn
        rw [hn2] at htr
        exact absurd htr (by decide)
    · have htrf : truthyOpt (GroqClient.generate_answer_with_sources
          s.groq_available oracle ((((c, sim) :: rest).filter (passSim t)).map
            (fun r => SR.mk r.1 r.2))).answer = false := by
        rw [hg]
        simpa using htr
      rw [genAnswer_fallback s cosSim oracle q k t hres hpass (Or.inr htrf)]
      exact hfbshape
  · have hgf : s.groq_available = false := by simpa using hg
    rw [genAnswer_fallback s cosSim oracle q k t hres hpass (Or.inl hgf)]
    exact hfbshape

/-- Claim C10: whenever search returns results and the best similarity
reaches the threshold, the returned answer is never absent and the late
low-confidence branches are not taken. -/
theorem C10_answer_never_absent (s : RAGSystemLite)
    (cosSim : List ℚ → List ℚ → ℚ) (oracle : Option String) (q : String)
    (k : Nat) (t : ℚ) {c : Chunk} {sim : ℚ} {rest : List (Chunk × ℚ)}
    (hres : s.search cosSim q k = (c, sim) :: rest) (hpass : t ≤ sim) :
    (s.generate_answer cosSim oracle q k t).answer ≠ none ∧
      (s.generate_answer cosSim oracle q k t).confidence ≠ "low" := by
  have h := genAnswer_pass_shape s cosSim oracle q k t hres hpass
  refine ⟨h.2, ?_⟩
  rcases h.1 with h1 | h1 <;> rw [h1] <;> decide

/-- Claim C10 witness: concrete two-chunk index, delegate unavailable. -/
theorem C10_witness :
    sEx.search cosConst "" 2 = (chunkB, 1) :: [(chunkA, 1)] ∧ (1 : ℚ) ≤ 1 ∧
      ((sEx.generate_answer cosConst none "" 2 1).answer ≠ none ∧
        (sEx.generate_answer cosConst none "" 2 1).confidence ≠ "low") :=
  ⟨by decide, by decide,
    C10_answer_never_absent sEx cosConst none "" 2 1
      (show sEx.search cosConst "" 2 = (chunkB, 1) :: [(chunkA, 1)] by decide)
      (by decide)⟩

/-- Claim C3 witness: delegate unavailable on a two-chunk index where both
chunks pass; the answer is the blank-line join of both texts. -/
theorem C3_witness :
    sEx.search cosConst "" 2 = (chunkB, 1) :: [(chunkA, 1)] ∧ (1 : ℚ) ≤ 1 ∧
      (sEx.groq_available = false ∨ truthyOpt none = false) ∧
      (sEx.generate_answer cosConst none "" 2 1).answer =
        some "beta\n\nalpha" ∧
      ((sEx.generate_answer cosConst none "" 2 1).answer =
          some (String.intercalate "\n\n"
            ((((sEx.search cosConst "" 2).filter (passSim 1)).take 2).map
              (fun r => r.1.text))) ∧
        (sEx.generate_answer cosConst none "" 2 1).refined = some false) :=
  ⟨by decide, by decide, Or.inl rfl, by decide,
    C3_fallback_concat sEx cosConst none "" 2 1
      (show sEx.search cosConst "" 2 = (chunkB, 1) :: [(chunkA, 1)] by decide)
      (by decide) (Or.inl rfl)⟩

/-- Sources of the lexical composer: when the best candidate passes, every
source entry is built from one of the first three ranked results, in the
refined path and in both fallback paths. -/
theorem lite_sources_top3 (s : RAGSystemLite) (cosSim : List ℚ → List ℚ → ℚ)
    (oracle : Option String) (q : String) (k : Nat) (t : ℚ) {c : Chunk}
    {sim : ℚ} {rest : List (Chunk × ℚ)}
    (hres : s.search cosSim q k = (c, sim) :: rest) (hpass : t ≤ sim) :
    ∀ src ∈ (s.generate_answer cosSim oracle q k t).sources,
      ∃ r ∈ (s.search cosSim q k).take 3,
        src.page = r.1.metadata.page_number ∧ src.similarity = r.2 := by
  have hsorted : ((c, sim) :: rest).Pairwise (fun a b : Chunk × ℚ => b.2 ≤ a.2) := by
    rw [← hres]
    exact search_pairwise s cosSim q k
  have hfallcase : ∀ src ∈ (fallbackAnswer t sim ((c, sim) :: rest)).sources,
      ∃ r ∈ ((c, sim) :: rest).take 3,
        src.page = r.1.metadata.page_number ∧ src.similarity = r.2 := by
    rw [fallbackAnswer_eq t sim _ (pairs_ne c rest hpass)]
    intro src hsrc
    rcases List.mem_map.mp hsrc with ⟨r, hr, hsrceq⟩
    have h1 : r ∈ ((c, sim) :: rest).take 2 := (List.mem_filter.mp hr).1
    refine ⟨r, mem_take_mono (by omega) h1, ?_, ?_⟩
    · rw [← hsrceq]
    · rw [← hsrceq]
  rw [hres]
  by_cases hg : s.groq_available = true
  · by_cases htr : truthyOpt (GroqClient.generate_answer_with_sources true oracle
        ((((c, sim) :: rest).filter (passSim t)).map
          (fun r => SR.mk r.1 r.2))).answer = true
    · rw [genAnswer_refined s cosSim oracle q k t hres hpass hg htr]
      intro src hsrc
      have hsrc2 : src ∈ (GroqClient.generate_answer_with_sources true oracle
          ((((c, sim) :: rest).filter (passSim t)).map
            (fun r => SR.mk r.1 r.2))).sources := hsrc
      rw [gws_sources_eq, srg_take_map_source] at hsrc2
      rcases List.mem_map.mp hsrc2 with ⟨r, hr, hsrceq⟩
      refine ⟨r, ?_, ?_, ?_⟩
      · have hflt : ((c, sim) :: rest).filter (passSim t) =
            ((c, sim) :: rest).takeWhile (passSim t) :=
          filter_passSim_eq_takeWhile t hsorted
        rw [hflt, List.take_takeWhile] at hr
        exact (List.takeWhile_sublist _).subset hr
      · rw [← hsrceq]
      · rw [← hsrceq]
    · have htrf : truthyOpt (GroqClient.generate_answer_with_sources
          s.groq_available oracle ((((c, sim) :: rest).filter (passSim t)).map
            (fun r => SR.mk r.1 r.2))).answer = false := by
        rw [hg]
        simpa using htr
      rw [genAnswer_fallback s cosSim oracle q k t hres hpass (Or.inr htrf)]
      exact hfallcase
  · have hgf : s.groq_available = false := by simpa using hg
    rw [genAnswer_fallback s cosSim oracle q k t hres hpass (Or.inl hgf)]
    exact hfallcase

/-- Sources of the dense composer: when the best distance passes, every
source entry is built from one of the first three ranked results. -/
theorem dense_sources_top3 (s : RAGSystem) (embed : String → List ℚ)
    (dist : List ℚ → List ℚ → ℚ) (q : String) (k : Nat) (t : ℚ) {c : Chunk}
    {d : ℚ} {rest : List (Chunk × ℚ)}
    (hres : s.search embed dist q k = (c, d) :: rest) (hpass : d ≤ t) :
    ∀ src ∈ (s.generate_answer embed dist q k t).sources,
      ∃ r ∈ (s.search embed dist q k).take 3,
        src.page = r.1.metadata.page_number ∧ src.distance = r.2 := by
  unfold RAGSystem.generate_answer
  rw [hres]
  have hpd : passDist t (c, d) = true := by simp [passDist, hpass]
  have h2 : (((c, d) :: rest).take 2) = (c, d) :: rest.take 1 := rfl
  have hpne : ((((c, d) :: rest).take 2).filter (passDist t)).isEmpty = false := by
    rw [h2]
    simp [List.filter_cons, hpd]
  simp only [List.isEmpty_cons, Bool.false_eq_true, if_false, List.headD_cons,
    if_neg (not_lt.mpr hpass), hpne]
  intro src hsrc
  rcases List.mem_map.mp hsrc with ⟨r, hr, hsrceq⟩
  have h1 : r ∈ ((c, d) :: rest).take 2 := (List.mem_filter.mp hr).1
  refine ⟨r, mem_take_mono (by omega) h1, ?_, ?_⟩
  · rw [← hsrceq]
  · rw [← hsrceq]

/-- Claim C4: in both systems, when the best candidate passes the threshold,
every source entry returned by generate_answer is built from one of the
first three ranked search results — in the delegate-refined path and in the
fallback paths alike. -/
theorem C4_sources_top3 :
    (∀ (s : RAGSystemLite) (cosSim : List ℚ → List ℚ → ℚ)
        (oracle : Option String) (q : String) (k : Nat) (t : ℚ) (c : Chunk)
        (sim : ℚ) (rest : List (Chunk × ℚ)),
      s.search cosSim q k = (c, sim) :: rest → t ≤ sim →
        ∀ src ∈ (s.generate_answer cosSim oracle q k t).sources,
          ∃ r ∈ (s.search cosSim q k).take 3,
            src.page = r.1.metadata.page_number ∧ src.similarity = r.2) ∧
      (∀ (s : RAGSystem) (embed : String → List ℚ)
          (dist : List ℚ → List ℚ → ℚ) (q : String) (k : Nat) (t : ℚ)
          (c : Chunk) (d : ℚ) (rest : List (Chunk × ℚ)),
        s.search embed dist q k = (c, d) :: rest → d ≤ t →
          ∀ src ∈ (s.generate_answer embed dist q k t).sources,
            ∃ r ∈ (s.search embed dist q k).take 3,
              src.page = r.1.metadata.page_number ∧ src.distance = r.2) :=
  ⟨fun s cosSim oracle q k t _c _sim _rest hres hpass =>
      lite_sources_top3 s cosSim oracle q k t hres hpass,
    fun s embed dist q k t _c _d _rest hres hpass =>
      dense_sources_top3 s embed dist q k t hres hpass⟩

/-- Claim C4 witness: a concrete two-chunk lexical index with the delegate
unavailable, and a concrete two-vector dense index; in both, every returned
source comes from the first three ranked results. -/
theorem C4_witness :
    sEx.search cosConst "" 2 = (chunkB, 1) :: [(chunkA, 1)] ∧ (1 : ℚ) ≤ 1 ∧
      dEx.search vecConst cosConst "" 2 = (chunkA, 1) :: [(chunkB, 1)] ∧
      (1 : ℚ) ≤ 2 ∧
      (∀ src ∈ (sEx.generate_answer cosConst none "" 2 1).sources,
        ∃ r ∈ (sEx.search cosConst "" 2).take 3,
          src.page = r.1.metadata.page_number ∧ src.similarity = r.2) ∧
      (∀ src ∈ (dEx.generate_answer vecConst cosConst "" 2 2).sources,
        ∃ r ∈ (dEx.search vecConst cosConst "" 2).take 3,
          src.page = r.1.metadata.page_number ∧ src.distance = r.2) :=
  ⟨by decide, by decide, by decide, by decide,
    C4_sources_top3.1 sEx cosConst none "" 2 1 chunkB 1 [(chunkA, 1)]
      (by decide) (by decide),
    C4_sources_top3.2 dEx vecConst cosConst "" 2 2 chunkA 1 [(chunkB, 1)]
      (by decide) (by decide)⟩

/-- Empty search results yield the confidence-none dictionary (lite). -/
theorem lite_genAnswer_none (s : RAGSystemLite) (cosSim : List ℚ → List ℚ → ℚ)
    (oracle : Option String) (q : String) (k : Nat) (t : ℚ)
    (hsr : s.search cosSim q k = []) :
    s.generate_answer cosSim oracle q k t = ⟨none, [], "none", none, none⟩ := by
  unfold RAGSystemLite.generate_answer
  rw [hsr]
  rfl

/-- A best similarity below the threshold yields the low-confidence
dictionary with an absent answer (lite). -/
theorem lite_genAnswer_low (s : RAGSystemLite) (cosSim : List ℚ → List ℚ → ℚ)
    (oracle : Option String) (q : String) (k : Nat) (t : ℚ) {c : Chunk}
    {sim : ℚ} {rest : List (Chunk × ℚ)}
    (hsr : s.search cosSim q k = (c, sim) :: rest) (hlt : sim < t) :
    s.generate_answer cosSim oracle q k t = ⟨none, [], "low", some sim, none⟩ := by
  unfold RAGSystemLite.generate_answer
  rw [hsr]
  simp only [List.isEmpty_cons, Bool.false_eq_true, if_false, List.headD_cons,
    if_pos hlt]

/-- Empty search results yield the confidence-none dictionary (dense). -/
theorem dense_genAnswer_none (s : RAGSystem) (embed : String → List ℚ)
    (dist : List ℚ → List ℚ → ℚ) (q : String) (k : Nat) (t : ℚ)
    (hsr : s.search embed dist q k = []) :
    s.generate_answer embed dist q k t = ⟨none, [], "none", none⟩ := by
  unfold RAGSystem.generate_answer
  rw [hsr]
  rfl

/-- A best distance above the threshold yields the low-confidence dictionary
with an absent answer (dense). -/
theorem dense_genAnswer_low (s : RAGSystem) (embed : String → List ℚ)
    (dist : List ℚ → List ℚ → ℚ) (q : String) (k : Nat) (t : ℚ) {c : Chunk}
    {d : ℚ} {rest : List (Chunk × ℚ)}
    (hsr : s.search embed dist q k = (c, d) :: rest) (hgt : t < d) :
    s.generate_answer embed dist q k t = ⟨none, [], "low", some d⟩ := by
  unfold RAGSystem.generate_answer
  rw [hsr]
  simp only [List.isEmpty_cons, Bool.false_eq_true, if_false, List.headD_cons,
    if_pos hgt]

/-- When the best distance passes, the dense composer ends with high or
medium confidence and a present answer. -/
theorem dense_genAnswer_pass_shape (s : RAGSystem) (embed : String → List ℚ)
    (dist : List ℚ → List ℚ → ℚ) (q : String) (k : Nat) (t : ℚ) {c : Chunk}
    {d : ℚ} {rest : List (Chunk × ℚ)}
    (hres : s.search embed dist q k = (c, d) :: rest) (hpass : d ≤ t) :
    ((s.generate_answer embed dist q k t).confidence = "high" ∨
        (s.generate_answer embed dist q k t).confidence = "medium") ∧
      (s.generate_answer embed dist q k t).answer ≠ none := by
  unfold RAGSystem.generate_answer
  rw [hres]
  have hpd : passDist t (c, d) = true := by simp [passDist, hpass]
  have h2 : (((c, d) :: rest).take 2) = (c, d) :: rest.take 1 := rfl
  have hpne : ((((c, d) :: rest).take 2).filter (passDist t)).isEmpty = false := by
    rw [h2]
    simp [List.filter_cons, hpd]
  simp only [List.isEmpty_cons, Bool.false_eq_true, if_false, List.headD_cons,
    if_neg (not_lt.mpr hpass), hpne]
  constructor
  · by_cases hcut : d < mkRat 4 5
    · exact Or.inl (by simp [hcut])
    · exact Or.inr (by simp [hcut])
  · simp

/-- Claim C5: in both systems, confidence is none exactly when search yields
no results, and confidence is low (with an absent answer) exactly when
results exist and the best score fails the threshold — similarity strictly
below it in lexical mode, distance strictly above it in dense mode; the
decision depends only on the head of the ranked results. -/
theorem C5_confidence_iff :
    (∀ (s : RAGSystemLite) (cosSim : List ℚ → List ℚ → ℚ)
        (oracle : Option String) (q : String) (k : Nat) (t : ℚ),
      ((s.generate_answer cosSim oracle q k t).confidence = "none" ↔
          s.search cosSim q k = []) ∧
        ((s.generate_answer cosSim oracle q k t).confidence = "low" ↔
          ∃ c sim rest, s.search cosSim q k = (c, sim) :: rest ∧ sim < t) ∧
        ((s.generate_answer cosSim oracle q k t).confidence = "low" →
          (s.generate_answer cosSim oracle q k t).answer = none)) ∧
      (∀ (s : RAGSystem) (embed : String → List ℚ)
          (dist : List ℚ → List ℚ → ℚ) (q : String) (k : Nat) (t : ℚ),
        ((s.generate_answer embed dist q k t).confidence = "none" ↔
            s.search embed dist q k = []) ∧
          ((s.generate_answer embed dist q k t).confidence = "low" ↔
            ∃ c d rest, s.search embed dist q k = (c, d) :: rest ∧ t < d) ∧
          ((s.generate_answer embed dist q k t).confidence = "low" →
            (s.generate_answer embed dist q k t).answer = none)) := by
  constructor
  · intro s cosSim oracle q k t
    cases hsr : s.search cosSim q k with
    | nil =>
      have hga := lite_genAnswer_none s cosSim oracle q k t hsr
      rw [hga]
      refine ⟨by simp, ?_, ?_⟩
      · constructor
        · intro h
          have h2 : ("none" : String) = "low" := h
          exact absurd h2 (by decide)
        · rintro ⟨c, sim, rest, habs, _⟩
          cases habs
      · intro h
        have h2 : ("none" : String) = "low" := h
        exact absurd h2 (by decide)
    | cons hd tl =>
      obtain ⟨c, sim⟩ := hd
      by_cases hlt : sim < t
      · have hga := lite_genAnswer_low s cosSim oracle q k t hsr hlt
        rw [hga]
        refine ⟨?_, ?_, fun _ => rfl⟩
        · constructor
          · intro h
            have h2 : ("low" : String) = "none" := h
            exact absurd h2 (by decide)
          · intro h
            cases h
        · exact ⟨fun _ => ⟨c, sim, tl, rfl, hlt⟩, fun _ => rfl⟩
      · have hpass : t ≤ sim := not_lt.mp hlt
        have hshape := genAnswer_pass_shape s cosSim oracle q k t hsr hpass
        have hnl : (s.generate_answer cosSim oracle q k t).confidence ≠ "low" ∧
            (s.generate_answer cosSim oracle q k t).confidence ≠ "none" := by
          rcases hshape.1 with h1 | h1 <;> rw [h1] <;> exact ⟨by decide, by decide⟩
        refine ⟨?_, ?_, ?_⟩
        · constructor
          · intro h
            exact absurd h hnl.2
          · intro h
            cases h
        · constructor
          · intro h
            exact absurd h hnl.1
          · rintro ⟨c2, sim2, rest2, heq, hlt2⟩
            injection heq with h1 h2
            injection h1 with hc hsim
            rw [← hsim] at hlt2
            exact absurd hlt2 (not_lt.mpr hpass)
        · intro h
          exact absurd h hnl.1
  · intro s embed dist q k t
    cases hsr : s.search embed dist q k with
    | nil =>
      have hga := dense_genAnswer_none s embed dist q k t hsr
      rw [hga]
      refine ⟨by simp, ?_, ?_⟩
      · constructor
        · intro h
          have h2 : ("none" : String) = "low" := h
          exact absurd h2 (by decide)
        · rintro ⟨c, d, rest, habs, _⟩
          cases habs
      · intro h
        have h2 : ("none" : String) = "low" := h
        exact absurd h2 (by decide)
    | cons hd tl =>
      obtain ⟨c, d⟩ := hd
      by_cases hgt : t < d
      · have hga := dense_genAnswer_low s embed dist q k t hsr hgt
        rw [hga]
        refine ⟨?_, ?_, fun _ => rfl⟩
        · constructor
          · intro h
            have h2 : ("low" : String) = "none" := h
            exact absurd h2 (by decide)
          · intro h
            cases h
        · exact ⟨fun _ => ⟨c, d, tl, rfl, hgt⟩, fun _ => rfl⟩
      · have hpass : d ≤ t := not_lt.mp hgt
        have hshape := dense_genAnswer_pass_shape s embed dist q k t hsr hpass
        have hnl : (s.generate_answer embed dist q k t).confidence ≠ "low" ∧
            (s.generate_answer embed dist q k t).confidence ≠ "none" := by
          rcases hshape.1 with h1 | h1 <;> rw [h1] <;> exact ⟨by decide, by decide⟩
        refine ⟨?_, ?_, ?_⟩
        · constructor
          · intro h
            exact absurd h hnl.2
          · intro h
            cases h
        · constructor
          · intro h
            exact absurd h hnl.1
          · rintro ⟨c2, d2, rest2, heq, hgt2⟩
            injection heq with h1 h2
            injection h1 with hc hd2
            rw [← hd2] at hgt2
            exact absurd hgt2 (not_lt.mpr hpass)
        · intro h
          exact absurd h hnl.1

/-- Claim C5 witness: a failing threshold on concrete lexical and dense
states produces low confidence in both systems. -/
theorem C5_witness :
    (sEx.generate_answer cosConst none "" 2 2).confidence = "low" ∧
      (dEx.generate_answer vecConst cosConst "" 2 0).confidence = "low" :=
  ⟨(C5_confidence_iff.1 sEx cosConst none "" 2 2).2.1.mpr
      ⟨chunkB, 1, [(chunkA, 1)], by decide, by decide⟩,
    (C5_confidence_iff.2 dEx vecConst cosConst "" 2 0).2.1.mpr
      ⟨chunkA, 1, [(chunkB, 1)], by decide, by decide⟩⟩

end ITBot
